import Mathlib

/-!
Verification development for the locutus weekly-reminder scheduler.

Shallow embedding of the core logic:
  * `render_template`     — src/template_utils.py, `render_template` (lines 80-96)
  * `update_next_run`     — src/web_scheduler.py, `WebScheduler.update_next_run` (lines 129-153)
  * `post_reminder`       — src/web_scheduler.py, `WebScheduler.post_reminder` (lines 80-127)
  * `processOne`          — the per-schedule try-body of
                            `WebScheduler.process_due_schedules` (lines 73-78)
  * `processDue`          — src/web_scheduler.py, `WebScheduler.process_due_schedules` (lines 60-78)
  * `first_occurrence`    — the next-run computation of `create_schedule`
                            in src/web_app.py (lines 539-561)

Time is modelled at minute resolution as minutes since 2024-01-01T00:00
(2024-01-01 is a Monday), for both local wall-clock instants and UTC
instants.  Python's aware-datetime arithmetic (`replace`, `+ timedelta`)
is wall-clock arithmetic; `astimezone` resolves the UTC offset at the
resulting wall instant (PEP 495, fold = 0).  The zone database is
restricted to the two zones exercised by the code and its tests:
UTC and America/New_York, with the 2024 DST transitions
(spring forward 2024-03-10 02:00 EST, fall back 2024-11-03 02:00 EDT).
-/

namespace Locutus

/-! ### Strings

Python `str` is modelled as `List Char`.  `replaceAll` is Python's
`str.replace`: left-to-right, non-overlapping replacement of every
occurrence.  The fuel argument is the length of the subject string,
which suffices because every step consumes at least one character
(all patterns at the call sites are non-empty). -/

abbrev Str := List Char

def replaceFuel (pat repl : Str) : Nat → Str → Str
  | 0, s => s
  | _ + 1, [] => []
  | fuel + 1, c :: rest =>
    if pat.isPrefixOf (c :: rest) then
      repl ++ replaceFuel pat repl fuel ((c :: rest).drop pat.length)
    else
      c :: replaceFuel pat repl fuel rest

def replaceAll (pat repl s : Str) : Str :=
  replaceFuel pat repl s.length s

/-- Python's `in` operator on strings: `containsSub sub s` holds iff
`sub` occurs contiguously in `s`. -/
def containsSub (sub : Str) : Str → Bool
  | [] => sub.isEmpty
  | c :: rest => sub.isPrefixOf (c :: rest) || containsSub sub rest

/-- Python `str.isdigit` (ASCII fragment): non-empty and all digits.
`"".isdigit()` is `False` in Python, hence the non-emptiness guard. -/
def pyIsDigit (s : Str) : Bool := !s.isEmpty && s.all Char.isDigit

/-- Python truthiness of an `Optional[str]`: `None` and `""` are falsy,
every non-empty string is truthy.  This is the test performed by
`if role_id:` in `render_template`. -/
def pyTruthy : Option Str → Bool
  | none => false
  | some s => !s.isEmpty

/-- src/template_utils.py lines 80-96, `render_template`. -/
def render_template (content system_name : Str) (role_id : Option Str) : Str :=
  let rendered := replaceAll "{system_name}".toList system_name content
  if pyTruthy role_id then
    let r := role_id.getD []
    if !pyIsDigit r then
      replaceAll "{role_id}".toList "INVALID_ROLE_ID".toList rendered
    else
      replaceAll "{role_id}".toList r rendered
  else
    let r1 := replaceAll "<@&{role_id}>".toList [] rendered
    replaceAll "{role_id}".toList [] r1

/-! ### Time model -/

/-- The zones the code and its tests exercise.  `zoneinfo.ZoneInfo`
raises `ZoneInfoNotFoundError` for unknown keys; `zoneOf` returns
`none` there. -/
inductive Zone
  | utc
  | americaNewYork
deriving DecidableEq

def zoneOf (name : String) : Option Zone :=
  if name = "UTC" then some Zone.utc
  else if name = "America/New_York" then some Zone.americaNewYork
  else none

/-- 2024-03-10 03:00 local wall time in America/New_York (end of the
spring-forward gap).  2024-03-10 is day 69 from 2024-01-01. -/
def nySpringWall : Int := 69 * 1440 + 180

/-- 2024-11-03 02:00 local wall time in America/New_York (end of the
fall-back ambiguity).  2024-11-03 is day 307 from 2024-01-01. -/
def nyFallWall : Int := 307 * 1440 + 120

/-- 2024-03-10 07:00 UTC: the instant of the spring-forward transition. -/
def nySpringUtc : Int := 69 * 1440 + 420

/-- 2024-11-03 06:00 UTC: the instant of the fall-back transition. -/
def nyFallUtc : Int := 307 * 1440 + 360

/-- UTC offset (minutes) a zone assigns to a local wall instant, with
PEP 495 `fold = 0` disambiguation: wall times in the spring-forward gap
take the pre-transition offset (EST, -300), wall times in the fall-back
overlap take the earlier reading (EDT, -240).  This is the offset
`datetime.astimezone` uses when converting a wall instant out of the
zone. -/
def offsetAtWall : Zone → Int → Int
  | Zone.utc, _ => 0
  | Zone.americaNewYork, w =>
    if w < nySpringWall then -300
    else if w < nyFallWall then -240
    else -300

/-- UTC offset (minutes) in effect at an absolute UTC instant; used by
`datetime.now(tz)` to produce the zone's current wall time. -/
def offsetAtUtc : Zone → Int → Int
  | Zone.utc, _ => 0
  | Zone.americaNewYork, u =>
    if u < nySpringUtc then -300
    else if u < nyFallUtc then -240
    else -300

/-- Local calendar day index of a wall instant (floor division, as in
Python's date arithmetic; `/` on `Int` with positive divisor floors). -/
def dayOfWall (w : Int) : Int := w / 1440

/-- Python `datetime.weekday()`: Monday = 0.  Day 0 (2024-01-01) is a
Monday. -/
def wkdayOfWall (w : Int) : Int := dayOfWall w % 7

/-- Python `dt.replace(hour=h, minute=m, second=0, microsecond=0)`:
same local day, time-of-day set to `h:m`. -/
def replTime (w : Int) (h m : Nat) : Int := dayOfWall w * 1440 + (h * 60 + m : Nat)

/-- `dt.astimezone(ZoneInfo("UTC"))` applied to a zoned wall instant. -/
def wallToUtc (z : Zone) (w : Int) : Int := w - offsetAtWall z w

/-- `datetime.now(tz)` given the current UTC instant. -/
def utcToWall (z : Zone) (u : Int) : Int := u + offsetAtUtc z u

/-! ### Data model and scheduler

`ScheduleRec` mirrors the `schedule` row of src/web_db.py: `time_local`
(stored as the string "HH:MM" and parsed with `split(":")` at every
use site) is carried pre-parsed as the `hour`/`minute` fields;
`next_run_utc` is a naive UTC instant in minutes of the model epoch. -/

structure ScheduleRec where
  id : Nat
  guild_id : Nat
  template_id : Nat
  system_name : Str
  weekday : Nat
  hour : Nat
  minute : Nat
  timezone : String
  channel_id : Option Nat
  enabled : Bool
  next_run_utc : Int
  advance_minutes : Nat
deriving DecidableEq

/-- A resolved guild handle: `guild.get_channel(c)` succeeds iff
`channels c` is true. -/
structure GuildH where
  channels : Nat → Bool

structure TemplateRec where
  content : Str
deriving DecidableEq

structure ConfigRec where
  role_id : Option Str
deriving DecidableEq

/-- The collaborators `post_reminder` consults: `bot.get_guild`,
the template and guild-config tables, and the outcome of
`channel.send` per channel. -/
structure Env where
  guilds : Nat → Option GuildH
  templates : Nat → Option TemplateRec
  configs : Nat → Option ConfigRec
  sendOk : Nat → Bool

/-- src/web_scheduler.py lines 80-127, `WebScheduler.post_reminder`.

Normal return carries the schedule row as committed by this call
(disabled on a resolution failure) and the delivered message, if any.
`Except.error` is the re-raised `channel.send` exception (lines
122-127); note that a missing `GuildConfig` row does NOT disable the
schedule — line 116 falls back to `role_id = None`. -/
def post_reminder (env : Env) (s : ScheduleRec) : Except Unit (ScheduleRec × Option Str) :=
  match env.guilds s.guild_id with
  | none => Except.ok ({ s with enabled := false }, none)
  | some g =>
    match s.channel_id with
    | none => Except.ok ({ s with enabled := false }, none)
    | some ch =>
      if g.channels ch then
        match env.templates s.template_id with
        | none => Except.ok ({ s with enabled := false }, none)
        | some t =>
          let role_id := match env.configs s.guild_id with
            | some cfg => cfg.role_id
            | none => none
          let msg := render_template t.content s.system_name role_id
          if env.sendOk ch then Except.ok (s, some msg) else Except.error ()
      else Except.ok ({ s with enabled := false }, none)

/-- src/web_scheduler.py lines 129-153, `WebScheduler.update_next_run`.

`ZoneInfo(schedule.timezone)` raises on an unknown zone name
(`Except.error`).  Otherwise: take `now` in the schedule's zone,
`replace` the time-of-day, add `timedelta(days=7)` (wall-clock
arithmetic), subtract `advance_minutes`, and convert to UTC with the
offset in force at the resulting wall instant. -/
def update_next_run (nowUtc : Int) (s : ScheduleRec) : Except Unit ScheduleRec :=
  match zoneOf s.timezone with
  | none => Except.error ()
  | some z =>
    let noww := utcToWall z nowUtc
    let daysAhead : Int := 7
    let nextRun := replTime noww s.hour s.minute + daysAhead * 1440 - (s.advance_minutes : Int)
    let nextRunUtc := wallToUtc z nextRun
    Except.ok { s with next_run_utc := nextRunUtc }

/-- The per-schedule try-body of `process_due_schedules`
(src/web_scheduler.py lines 73-78): run `post_reminder`, then
`update_next_run` (unconditionally, also when `post_reminder` disabled
the schedule and sent nothing); any exception from either is caught by
the per-item handler and only logged, leaving the row as last
committed.  Returns the final row and the messages delivered. -/
def processOne (env : Env) (nowUtc : Int) (s : ScheduleRec) : ScheduleRec × List Str :=
  match post_reminder env s with
  | Except.error _ => (s, [])
  | Except.ok (s1, msg) =>
    match update_next_run nowUtc s1 with
    | Except.error _ => (s1, msg.toList)
    | Except.ok s2 => (s2, msg.toList)

/-- The due-set predicate of the poll query
(src/web_scheduler.py line 68): `enabled == True AND next_run_utc <= now`. -/
def dueQ (nowUtc : Int) (s : ScheduleRec) : Bool :=
  s.enabled && decide (s.next_run_utc ≤ nowUtc)

def insertSorted (s : ScheduleRec) : List ScheduleRec → List ScheduleRec
  | [] => [s]
  | t :: rest =>
    if s.next_run_utc ≤ t.next_run_utc then s :: t :: rest
    else t :: insertSorted s rest

/-- `ORDER BY next_run_utc` of the poll query (line 69). -/
def sortByNextRun : List ScheduleRec → List ScheduleRec
  | [] => []
  | s :: rest => insertSorted s (sortByNextRun rest)

/-- Committing a mutated row: the table keeps its shape and the row
with the committed row's primary key is replaced. -/
def updateById (s' : ScheduleRec) (db : List ScheduleRec) : List ScheduleRec :=
  db.map fun r => if r.id = s'.id then s' else r

/-- The due set selected by the poll query (lines 66-71): enabled rows
with `next_run_utc ≤ now`, ordered by `next_run_utc`. -/
def dueList (nowUtc : Int) (db : List ScheduleRec) : List ScheduleRec :=
  sortByNextRun (db.filter (dueQ nowUtc))

/-- One iteration of the dispatch loop acting on the accumulated table
and message log. -/
def tickFold (env : Env) (nowUtc : Int) (acc : List ScheduleRec × List Str)
    (s : ScheduleRec) : List ScheduleRec × List Str :=
  (updateById (processOne env nowUtc s).1 acc.1, acc.2 ++ (processOne env nowUtc s).2)

/-- src/web_scheduler.py lines 60-78, `WebScheduler.process_due_schedules`:
select the due set (enabled and `next_run_utc ≤ now`, ordered by
`next_run_utc`), then process it sequentially; each item's effects are
committed individually and an item's exception is caught per-item.
Returns the table after the tick and the delivered messages in
processing order. -/
def processDue (env : Env) (nowUtc : Int) (db : List ScheduleRec) :
    List ScheduleRec × List Str :=
  (dueList nowUtc db).foldl (tickFold env nowUtc) (db, [])

/-- The first-run computation of `create_schedule`
(src/web_app.py lines 539-561): search forward for the rule's weekday
from `now` in the guild's zone (`days_ahead = weekday - now.weekday()`,
`+7` if negative, bumped to `7` on the same day once `now >= target_time`),
set the time-of-day, subtract `advance_minutes`, convert to UTC at the
resulting wall instant.  Returns the stored `next_run_utc`. -/
def first_occurrence (z : Zone) (nowUtc : Int) (weekday h m adv : Nat) : Int :=
  let noww := utcToWall z nowUtc
  let target := replTime noww h m
  let daysAhead0 : Int := (weekday : Int) - wkdayOfWall noww
  let daysAhead : Int :=
    if daysAhead0 < 0 then daysAhead0 + 7
    else if daysAhead0 = 0 then (if noww ≥ target then 7 else 0)
    else daysAhead0
  let nextRun := target + daysAhead * 1440 - (adv : Int)
  wallToUtc z nextRun

/-- The spec's closed form for the day offset chosen by
`first_occurrence`: `(rule.weekday - reference.weekday()) mod 7`,
bumped to `7` when the offset is `0` and the reference's time-of-day is
not earlier than the target time (spec section 4.1, steps 1-2).  Stated
from the spec's words, to be compared with the branching of the source
in `first_occurrence`. -/
def specDayOffset (z : Zone) (nowUtc : Int) (weekday h m : Nat) : Int :=
  if ((weekday : Int) - wkdayOfWall (utcToWall z nowUtc)) % 7 = 0
      ∧ utcToWall z nowUtc ≥ replTime (utcToWall z nowUtc) h m then 7
  else ((weekday : Int) - wkdayOfWall (utcToWall z nowUtc)) % 7

end Locutus

deriving instance DecidableEq for Except

namespace Locutus

/-! ### Helper lemmas about the tick fold -/

theorem post_reminder_fst_id (env : Env) (s : ScheduleRec)
    (r : ScheduleRec × Option Str) (h : post_reminder env s = Except.ok r) :
    r.1.id = s.id := by
  unfold post_reminder at h
  repeat' split at h
  all_goals first
    | (cases h; rfl)
    | cases h

theorem update_next_run_id (nowUtc : Int) (s s' : ScheduleRec)
    (h : update_next_run nowUtc s = Except.ok s') : s'.id = s.id := by
  unfold update_next_run at h
  repeat' split at h
  all_goals first
    | (cases h; rfl)
    | cases h

theorem processOne_id (env : Env) (nowUtc : Int) (s : ScheduleRec) :
    ((processOne env nowUtc s).1).id = s.id := by
  cases hpost : post_reminder env s with
  | error e => simp [processOne, hpost]
  | ok p =>
    rcases p with ⟨s1, msg⟩
    have h1 := post_reminder_fst_id env s _ hpost
    cases hup : update_next_run nowUtc s1 with
    | error e => simpa [processOne, hpost, hup] using h1
    | ok s2 =>
      have h2 := update_next_run_id nowUtc s1 s2 hup
      simpa [processOne, hpost, hup] using h2.trans h1

theorem updateById_length (s' : ScheduleRec) (d : List ScheduleRec) :
    (updateById s' d).length = d.length := by
  simp [updateById]

theorem updateById_get (s' : ScheduleRec) (d : List ScheduleRec) (i : Nat)
    (h : i < d.length) (h2 : i < (updateById s' d).length) :
    (updateById s' d).get ⟨i, h2⟩ =
      if (d.get ⟨i, h⟩).id = s'.id then s' else d.get ⟨i, h⟩ := by
  simp [updateById, List.get_eq_getElem, List.getElem_map]

theorem tickFold_fst_length (env : Env) (nowUtc : Int) (L : List ScheduleRec)
    (d : List ScheduleRec) (ms : List Str) :
    ((L.foldl (tickFold env nowUtc) (d, ms)).1).length = d.length := by
  induction L generalizing d ms with
  | nil => rfl
  | cons x xs ih =>
    rw [List.foldl_cons]
    exact (ih _ _).trans (updateById_length _ _)

theorem tickFold_get_ne (env : Env) (nowUtc : Int) (L : List ScheduleRec)
    (d : List ScheduleRec) (ms : List Str) (i : Nat) (h : i < d.length)
    (hne : ∀ x ∈ L, x.id ≠ (d.get ⟨i, h⟩).id)
    (h2 : i < ((L.foldl (tickFold env nowUtc) (d, ms)).1).length) :
    ((L.foldl (tickFold env nowUtc) (d, ms)).1).get ⟨i, h2⟩ = d.get ⟨i, h⟩ := by
  induction L generalizing d ms with
  | nil => rfl
  | cons x xs ih =>
    have hd : i < (updateById (processOne env nowUtc x).1 d).length := by
      rw [updateById_length]; exact h
    have hkeep : (updateById (processOne env nowUtc x).1 d).get ⟨i, hd⟩ = d.get ⟨i, h⟩ := by
      rw [updateById_get _ _ _ h]
      rw [processOne_id]
      exact if_neg (fun hc => hne x (by simp) hc.symm)
    have hne' : ∀ y ∈ xs, y.id ≠ ((updateById (processOne env nowUtc x).1 d).get ⟨i, hd⟩).id := by
      intro y hy
      rw [hkeep]
      exact hne y (by simp [hy])
    have h2' : i < ((xs.foldl (tickFold env nowUtc)
        (updateById (processOne env nowUtc x).1 d,
          ms ++ (processOne env nowUtc x).2)).1).length := h2
    exact (ih _ _ hd hne' h2').trans hkeep

theorem tickFold_get_mem (env : Env) (nowUtc : Int) (L : List ScheduleRec)
    (d : List ScheduleRec) (ms : List Str) (i : Nat) (h : i < d.length)
    (r : ScheduleRec) (hr : d.get ⟨i, h⟩ = r) (hmem : r ∈ L)
    (hnd : (L.map (fun x => x.id)).Nodup)
    (huniq : ∀ x ∈ L, x.id = r.id → x = r)
    (h2 : i < ((L.foldl (tickFold env nowUtc) (d, ms)).1).length) :
    ((L.foldl (tickFold env nowUtc) (d, ms)).1).get ⟨i, h2⟩ = (processOne env nowUtc r).1 := by
  induction L generalizing d ms with
  | nil => exact absurd hmem (List.not_mem_nil r)
  | cons x xs ih =>
    have hd : i < (updateById (processOne env nowUtc x).1 d).length := by
      rw [updateById_length]; exact h
    have h2' : i < ((xs.foldl (tickFold env nowUtc)
        (updateById (processOne env nowUtc x).1 d,
          ms ++ (processOne env nowUtc x).2)).1).length := h2
    by_cases hxr : x = r
    · subst hxr
      have hset : (updateById (processOne env nowUtc x).1 d).get ⟨i, hd⟩ =
          (processOne env nowUtc x).1 := by
        rw [updateById_get _ _ _ h, processOne_id, hr, if_pos rfl]
      have hxs : x.id ∉ xs.map (fun y => y.id) := by
        have := hnd
        rw [List.map_cons, List.nodup_cons] at this
        exact this.1
      have hne' : ∀ y ∈ xs,
          y.id ≠ ((updateById (processOne env nowUtc x).1 d).get ⟨i, hd⟩).id := by
        intro y hy
        rw [hset, processOne_id]
        intro hcon
        exact hxs (hcon ▸ List.mem_map_of_mem (fun y => y.id) hy)
      exact (tickFold_get_ne env nowUtc xs _ _ i hd hne' h2').trans hset
    · have hxid : x.id ≠ r.id := fun he => hxr (huniq x (by simp) he)
      have hkeep : (updateById (processOne env nowUtc x).1 d).get ⟨i, hd⟩ = r := by
        rw [updateById_get _ _ _ h, processOne_id, hr]
        exact if_neg (fun hc => hxid hc.symm)
      have hmem' : r ∈ xs := by
        rcases List.mem_cons.mp hmem with h' | h'
        · exact absurd h'.symm hxr
        · exact h'
      have hnd' : (xs.map (fun y => y.id)).Nodup := by
        have := hnd
        rw [List.map_cons, List.nodup_cons] at this
        exact this.2
      exact ih _ _ hd hkeep hmem' hnd' (fun y hy => huniq y (by simp [hy])) h2'

theorem insertSorted_perm (s : ScheduleRec) (l : List ScheduleRec) :
    (insertSorted s l).Perm (s :: l) := by
  induction l with
  | nil => exact List.Perm.refl _
  | cons t rest ih =>
    unfold insertSorted
    split
    · exact List.Perm.refl _
    · exact (ih.cons t).trans (List.Perm.swap s t rest)

theorem sortByNextRun_perm (l : List ScheduleRec) : (sortByNextRun l).Perm l := by
  induction l with
  | nil => exact List.Perm.refl _
  | cons s rest ih =>
    exact (insertSorted_perm s (sortByNextRun rest)).trans (ih.cons s)

theorem mem_dueList (nowUtc : Int) (db : List ScheduleRec) (x : ScheduleRec) :
    x ∈ dueList nowUtc db ↔ x ∈ db ∧ dueQ nowUtc x = true := by
  rw [dueList, (sortByNextRun_perm _).mem_iff, List.mem_filter]

theorem nodup_dueList_ids (nowUtc : Int) (db : List ScheduleRec)
    (hnd : (db.map (fun r => r.id)).Nodup) :
    ((dueList nowUtc db).map (fun r => r.id)).Nodup := by
  have hperm : ((dueList nowUtc db).map (fun r => r.id)).Perm
      (((db.filter (dueQ nowUtc))).map (fun r => r.id)) :=
    (sortByNextRun_perm _).map _
  refine hperm.nodup_iff.mpr ?_
  exact hnd.sublist ((List.filter_sublist _).map _)

theorem eq_of_mem_of_id_eq (db : List ScheduleRec)
    (hnd : (db.map (fun r => r.id)).Nodup) (i : Nat) (h : i < db.length)
    (x : ScheduleRec) (hx : x ∈ db) (hid : x.id = (db.get ⟨i, h⟩).id) :
    x = db.get ⟨i, h⟩ := by
  rcases List.mem_iff_get.mp hx with ⟨j, hj⟩
  have hmap : (db.map (fun r => r.id)).get ⟨j.1, by rw [List.length_map]; exact j.2⟩ =
      (db.map (fun r => r.id)).get ⟨i, by rw [List.length_map]; exact h⟩ := by
    simp only [List.get_eq_getElem, List.getElem_map]
    rw [show db[j.1] = x from hj, show db[i] = db.get ⟨i, h⟩ from rfl]
    exact hid
  have := (List.Nodup.get_inj_iff hnd).mp hmap
  have hji : j.1 = i := congrArg Fin.val this
  rw [← hj]
  congr 1
  exact Fin.ext hji

theorem processDue_fst_length (env : Env) (nowUtc : Int) (db : List ScheduleRec) :
    ((processDue env nowUtc db).1).length = db.length :=
  tickFold_fst_length env nowUtc (dueList nowUtc db) db []

theorem processDue_fst_get (env : Env) (nowUtc : Int) (db : List ScheduleRec)
    (hnd : (db.map (fun r => r.id)).Nodup) (i : Nat) (h : i < db.length)
    (h2 : i < ((processDue env nowUtc db).1).length) :
    ((processDue env nowUtc db).1).get ⟨i, h2⟩ =
      if dueQ nowUtc (db.get ⟨i, h⟩) = true then (processOne env nowUtc (db.get ⟨i, h⟩)).1
      else db.get ⟨i, h⟩ := by
  by_cases hdue : dueQ nowUtc (db.get ⟨i, h⟩) = true
  · rw [if_pos hdue]
    refine tickFold_get_mem env nowUtc (dueList nowUtc db) db [] i h _ rfl ?_
      (nodup_dueList_ids nowUtc db hnd) ?_ h2
    · exact (mem_dueList nowUtc db _).mpr ⟨List.get_mem db i h, hdue⟩
    · intro x hx hid
      exact eq_of_mem_of_id_eq db hnd i h x ((mem_dueList nowUtc db x).mp hx).1 hid
  · rw [if_neg hdue]
    refine tickFold_get_ne env nowUtc (dueList nowUtc db) db [] i h ?_ h2
    intro x hx hid
    have hxdb := (mem_dueList nowUtc db x).mp hx
    have hx' := eq_of_mem_of_id_eq db hnd i h x hxdb.1 hid
    exact hdue (hx' ▸ hxdb.2)

end Locutus

namespace Locutus

/-! ### Concrete fixtures used by counterexamples and witnesses -/

/-- A world with one guild (id 1) owning channels 5 and 6, one template
(id 3), no `GuildConfig` row for any guild, and a transport that
succeeds only on channel 5. -/
def envTick : Env :=
  { guilds := fun g => if g = 1 then some ⟨fun c => c = 5 || c = 6⟩ else none
    templates := fun t => if t = 3 then some ⟨"TD {system_name}! <@&{role_id}>".toList⟩ else none
    configs := fun _ => none
    sendOk := fun c => c = 5 }

/-- A world in which no guild resolves. -/
def envNoGuild : Env :=
  { guilds := fun _ => none
    templates := fun _ => none
    configs := fun _ => none
    sendOk := fun _ => false }

/-- A world identical to `envTick` except that every send fails. -/
def envSendFail : Env :=
  { envTick with sendOk := fun _ => false }

/-- A due schedule resolving against `envTick`: weekday 0, 09:00 UTC,
no advance. -/
def schedBase : ScheduleRec :=
  { id := 1, guild_id := 1, template_id := 3, system_name := "Sol".toList
    weekday := 0, hour := 9, minute := 0, timezone := "UTC"
    channel_id := some 5, enabled := true, next_run_utc := 0, advance_minutes := 0 }

/-- Rule weekday 0 (Monday) in America/New_York at 10:00. -/
def schedNY : ScheduleRec :=
  { schedBase with timezone := "America/New_York", hour := 10 }

/-- Rule weekday 0 at 02:30 America/New_York (the DST literal). -/
def schedDst : ScheduleRec :=
  { schedBase with timezone := "America/New_York", hour := 2, minute := 30 }

/-- A schedule whose stored timezone name is not a recognized IANA key. -/
def schedBadTz : ScheduleRec :=
  { schedBase with timezone := "Mars/Olympus" }

/-- A schedule whose channel resolves but whose sends fail in `envTick`. -/
def schedFailing : ScheduleRec :=
  { schedBase with channel_id := some 6 }

/-- A second, independently healthy schedule. -/
def schedOk : ScheduleRec :=
  { schedBase with id := 2, next_run_utc := 50 }

/-! ### Claim C1 -/

/-- Claim C1, counterexample: a due schedule whose tenant, destination
channel and template all resolve but whose tenant has no `GuildConfig`
row is NOT disabled; delivery is attempted (and here succeeds) with the
mention fallback `role_id = None`.  This refutes the claim that a
missing `GuildConfig` is a terminal resolution failure. -/
theorem guildconfig_missing_still_delivers :
    envTick.configs schedBase.guild_id = none
    ∧ schedBase.enabled = true
    ∧ post_reminder envTick schedBase = Except.ok (schedBase, some "TD Sol! ".toList) := by
  constructor
  · rfl
  constructor
  · rfl
  · rfl

/-- Claim C1 (amended): of the four resolutions, only the first three
are terminal.  A guild that does not resolve, a missing/unresolvable
channel, or a missing template each sets `enabled := false`
(persisted) and attempts no delivery; a missing `GuildConfig` row is
tolerated: `role_id` falls back to `None` and delivery proceeds. -/
theorem resolution_disable_policy (env : Env) (s : ScheduleRec) :
    (env.guilds s.guild_id = none →
      post_reminder env s = Except.ok ({ s with enabled := false }, none))
    ∧ (s.channel_id = none →
      post_reminder env s = Except.ok ({ s with enabled := false }, none))
    ∧ (∀ g ch, env.guilds s.guild_id = some g → s.channel_id = some ch →
        g.channels ch = false →
        post_reminder env s = Except.ok ({ s with enabled := false }, none))
    ∧ (∀ g ch, env.guilds s.guild_id = some g → s.channel_id = some ch →
        g.channels ch = true → env.templates s.template_id = none →
        post_reminder env s = Except.ok ({ s with enabled := false }, none))
    ∧ (∀ g ch t, env.guilds s.guild_id = some g → s.channel_id = some ch →
        g.channels ch = true → env.templates s.template_id = some t →
        env.configs s.guild_id = none → env.sendOk ch = true →
        post_reminder env s =
          Except.ok (s, some (render_template t.content s.system_name none))) := by
  refine ⟨?_, ?_, ?_, ?_, ?_⟩
  · intro hg
    simp [post_reminder, hg]
  · intro hch
    cases hg : env.guilds s.guild_id with
    | none => simp [post_reminder, hg]
    | some g => simp [post_reminder, hg, hch]
  · intro g ch hg hch hc
    simp [post_reminder, hg, hch, hc]
  · intro g ch hg hch hc ht
    simp [post_reminder, hg, hch, hc, ht]
  · intro g ch t hg hch hc ht hcfg hsend
    simp [post_reminder, hg, hch, hc, ht, hcfg, hsend]

/-- Claim C1 witness: the disable branches and the tolerated
`GuildConfig` miss, at concrete inputs. -/
theorem resolution_disable_policy_witness :
    post_reminder envNoGuild schedBase =
      Except.ok ({ schedBase with enabled := false }, none)
    ∧ post_reminder envTick { schedBase with channel_id := none } =
      Except.ok ({ schedBase with channel_id := none, enabled := false }, none)
    ∧ post_reminder envTick schedBase = Except.ok (schedBase, some "TD Sol! ".toList) := by
  refine ⟨?_, ?_, ?_⟩
  · exact (resolution_disable_policy envNoGuild schedBase).1 rfl
  · exact (resolution_disable_policy envTick { schedBase with channel_id := none }).2.1 rfl
  · exact (resolution_disable_policy envTick schedBase).2.2.2.2
      ⟨fun c => c = 5 || c = 6⟩ 5 ⟨"TD {system_name}! <@&{role_id}>".toList⟩
      rfl rfl rfl rfl rfl rfl

/-! ### Claim C2 -/

/-- Claim C2, counterexample: a schedule disabled during a tick (guild
unresolvable) does NOT keep the `next_run_utc` it had at the moment of
disablement — in the remainder of that same tick, `update_next_run` is
still invoked on it and overwrites `next_run_utc` (0 becomes 10620). -/
theorem disabled_same_tick_overwrite :
    schedBase.next_run_utc = 0
    ∧ processDue envNoGuild 100 [schedBase] =
        ([{ schedBase with enabled := false, next_run_utc := 10620 }], [])
    ∧ (10620 : Int) ≠ 0 := by
  refine ⟨rfl, rfl, by decide⟩

/-- Claim C2 (amended): a schedule that is already disabled when a tick
polls is never selected (it fails the due query) and its row is left
untouched by the tick, so across later ticks its `next_run_utc` is
frozen; but a schedule disabled DURING a tick by a resolution failure
does not keep its `next_run_utc` for the remainder of that tick:
`update_next_run` still runs on it and overwrites `next_run_utc` once
(whenever its timezone resolves). -/
theorem disabled_frozen_in_later_ticks (env : Env) (nowUtc : Int)
    (db : List ScheduleRec) (hnd : (db.map (fun r => r.id)).Nodup)
    (i : Nat) (h : i < db.length) (h2 : i < ((processDue env nowUtc db).1).length)
    (hdis : (db.get ⟨i, h⟩).enabled = false) :
    dueQ nowUtc (db.get ⟨i, h⟩) = false
    ∧ ((processDue env nowUtc db).1).get ⟨i, h2⟩ = db.get ⟨i, h⟩
    ∧ (∀ (s : ScheduleRec) (z : Zone), env.guilds s.guild_id = none →
        zoneOf s.timezone = some z →
        (processOne env nowUtc s).1.enabled = false
        ∧ (processOne env nowUtc s).1.next_run_utc =
            wallToUtc z (replTime (utcToWall z nowUtc) s.hour s.minute
              + 7 * 1440 - (s.advance_minutes : Int))) := by
  have hq : dueQ nowUtc (db.get ⟨i, h⟩) = false := by
    unfold dueQ
    rw [hdis]
    rfl
  refine ⟨hq, ?_, ?_⟩
  · rw [processDue_fst_get env nowUtc db hnd i h h2]
    exact if_neg (fun hc => Bool.false_ne_true (hq.symm.trans hc))
  · intro s z hg hz
    simp [processOne, post_reminder, update_next_run, hg, hz]

/-- Claim C2 witness: an already-disabled row is skipped and untouched
by the tick; a row disabled during the tick has its `next_run_utc`
overwritten. -/
theorem disabled_frozen_in_later_ticks_witness :
    dueQ 100 { schedBase with enabled := false } = false
    ∧ ((processDue envNoGuild 100 [{ schedBase with enabled := false }]).1).get
        ⟨0, by decide⟩ = { schedBase with enabled := false }
    ∧ (processOne envNoGuild 100 schedBase).1.enabled = false
    ∧ (processOne envNoGuild 100 schedBase).1.next_run_utc = 10620 := by
  have hmain := disabled_frozen_in_later_ticks envNoGuild 100
    [{ schedBase with enabled := false }] (by decide) 0 (by decide) (by decide) (by decide)
  have hover := hmain.2.2 schedBase Zone.utc rfl rfl
  exact ⟨hmain.1, hmain.2.1, hover.1, hover.2⟩

/-! ### Claim C3 -/

/-- Claim C3: when every resolution succeeds but the channel send
fails, the raised exception is caught by the per-item handler after no
commit has happened, so the tick leaves the schedule untouched
(`next_run_utc` not advanced, `enabled` still as it was, nothing
delivered), and a schedule that was due stays due at every later poll
instant — it is retried with no backoff and no ceiling. -/
theorem delivery_failure_leaves_state (env : Env) (nowUtc : Int) (s : ScheduleRec)
    (g : GuildH) (ch : Nat) (t : TemplateRec)
    (hg : env.guilds s.guild_id = some g) (hch : s.channel_id = some ch)
    (hc : g.channels ch = true) (ht : env.templates s.template_id = some t)
    (hsend : env.sendOk ch = false) :
    processOne env nowUtc s = (s, [])
    ∧ (∀ now2 : Int, dueQ nowUtc s = true → nowUtc ≤ now2 → dueQ now2 s = true) := by
  constructor
  · simp [processOne, post_reminder, hg, hch, hc, ht, hsend]
  · intro now2 hdue hle
    simp only [dueQ, Bool.and_eq_true, decide_eq_true_eq] at hdue ⊢
    exact ⟨hdue.1, le_trans hdue.2 hle⟩

/-- Claim C3 witness: a concrete failing delivery leaves the schedule
unchanged and due again at the next poll. -/
theorem delivery_failure_leaves_state_witness :
    processOne envSendFail 100 schedBase = (schedBase, [])
    ∧ dueQ 160 schedBase = true := by
  have hmain := delivery_failure_leaves_state envSendFail 100 schedBase
    ⟨fun c => c = 5 || c = 6⟩ 5 ⟨"TD {system_name}! <@&{role_id}>".toList⟩
    rfl rfl rfl rfl rfl
  exact ⟨hmain.1, hmain.2 160 (by decide) (by decide)⟩

end Locutus

namespace Locutus

/-! ### Claim C4 -/

/-- Claim C4, counterexample: the re-arm never consults
`rule.weekday`.  With rule weekday 0 (Monday) but the fire happening on
a Tuesday (the schedule was still due because an earlier delivery
failed and was retried), `update_next_run` produces an instant whose
local day-of-week is 1 (Tuesday), not the rule's 0 — weekly cadence on
the rule's weekday is not preserved once the lag crosses a local
midnight. -/
theorem rearm_weekday_drift :
    schedNY.weekday = 0
    ∧ dueQ 93060 schedNY = true
    ∧ wkdayOfWall (utcToWall Zone.americaNewYork 93060) = 1
    ∧ schedNY.advance_minutes = 0
    ∧ update_next_run 93060 schedNY = Except.ok { schedNY with next_run_utc := 103080 }
    ∧ wkdayOfWall (utcToWall Zone.americaNewYork 103080) = 1 := by
  refine ⟨rfl, rfl, by decide, rfl, rfl, by decide⟩

/-- Claim C4 (amended): on every successful fire, `update_next_run`
sets `next_run_utc` to exactly 7 local-calendar days after the
REFERENCE instant's local date at `time_local` minus
`advance_minutes`; the nominal instant's local day-of-week therefore
equals the reference instant's local day-of-week — which equals
`rule.weekday` only when the tick fires on the rule's weekday (lag
within the same local day), not under arbitrary lag. -/
theorem rearm_seven_days_from_reference (z : Zone) (nowUtc : Int) (s : ScheduleRec)
    (hz : zoneOf s.timezone = some z) (hh : s.hour < 24) (hm : s.minute < 60) :
    update_next_run nowUtc s = Except.ok { s with next_run_utc :=
        (wallToUtc z ((dayOfWall (utcToWall z nowUtc) + 7) * 1440
          + ((s.hour * 60 + s.minute : Nat) : Int) - (s.advance_minutes : Int))) }
    ∧ dayOfWall ((dayOfWall (utcToWall z nowUtc) + 7) * 1440
        + ((s.hour * 60 + s.minute : Nat) : Int)) = dayOfWall (utcToWall z nowUtc) + 7
    ∧ wkdayOfWall ((dayOfWall (utcToWall z nowUtc) + 7) * 1440
        + ((s.hour * 60 + s.minute : Nat) : Int)) = wkdayOfWall (utcToWall z nowUtc)
    ∧ ((dayOfWall (utcToWall z nowUtc) + 7) * 1440
        + ((s.hour * 60 + s.minute : Nat) : Int) - (s.advance_minutes : Int)) % 1440
      = (((s.hour * 60 + s.minute : Nat) : Int) - (s.advance_minutes : Int)) % 1440 := by
  have harg : replTime (utcToWall z nowUtc) s.hour s.minute + 7 * 1440
      - (s.advance_minutes : Int)
      = (dayOfWall (utcToWall z nowUtc) + 7) * 1440
        + ((s.hour * 60 + s.minute : Nat) : Int) - (s.advance_minutes : Int) := by
    unfold replTime
    ring
  refine ⟨?_, ?_, ?_, ?_⟩
  · have hstep : update_next_run nowUtc s = Except.ok { s with next_run_utc :=
        (wallToUtc z (replTime (utcToWall z nowUtc) s.hour s.minute + 7 * 1440
          - (s.advance_minutes : Int))) } := by
      unfold update_next_run
      rw [hz]
    rw [hstep, harg]
  · unfold dayOfWall
    omega
  · unfold wkdayOfWall dayOfWall
    omega
  · omega

/-- Claim C4 witness: the amended re-arm law at the drifted concrete
fire (Tuesday reference, rule weekday Monday). -/
theorem rearm_seven_days_witness :
    update_next_run 93060 schedNY = Except.ok { schedNY with next_run_utc := 103080 }
    ∧ dayOfWall 102840 = 71
    ∧ wkdayOfWall 102840 = 1
    ∧ (102840 : Int) % 1440 = (600 : Int) % 1440 := by
  have hmain := rearm_seven_days_from_reference Zone.americaNewYork 93060 schedNY
    (by decide) (by decide) (by decide)
  exact ⟨hmain.1, hmain.2.1, hmain.2.2.1, hmain.2.2.2⟩

/-! ### Claim C5 -/

/-- Claim C5, counterexample: a schedule with an unrecognized
timezone is NOT disabled at fire time.  All resolutions succeed,
delivery is performed, `ZoneInfo` then raises inside
`update_next_run`, the per-item handler swallows it, and the schedule
stays enabled with an unchanged `next_run_utc` — so it is due again at
the next poll and is retried (re-delivering), rather than being
treated as a terminal configuration error. -/
theorem badTz_not_disabled :
    zoneOf schedBadTz.timezone = none
    ∧ processDue envTick 100 [schedBadTz] = ([schedBadTz], ["TD Sol! ".toList])
    ∧ schedBadTz.enabled = true
    ∧ dueQ 160 schedBadTz = true := by
  refine ⟨rfl, rfl, rfl, rfl⟩

/-- Claim C5 (amended): an unrecognized timezone at fire time neither
crashes the loop nor aborts the tick: the exception from
`update_next_run` is caught by the per-item handler, every due row of
the batch still receives its per-item treatment, and the affected
schedule is left enabled with an unchanged `next_run_utc` (after the
delivery already went out), so it stays due and is retried each tick —
it is NOT disabled. -/
theorem badTz_caught_and_retried (env : Env) (nowUtc : Int) (s : ScheduleRec)
    (g : GuildH) (ch : Nat) (t : TemplateRec)
    (hz : zoneOf s.timezone = none)
    (hg : env.guilds s.guild_id = some g) (hch : s.channel_id = some ch)
    (hc : g.channels ch = true) (ht : env.templates s.template_id = some t)
    (hcfg : env.configs s.guild_id = none) (hsend : env.sendOk ch = true) :
    processOne env nowUtc s = (s, [render_template t.content s.system_name none])
    ∧ (∀ now2 : Int, dueQ nowUtc s = true → nowUtc ≤ now2 → dueQ now2 s = true)
    ∧ (∀ (db : List ScheduleRec), (db.map (fun r => r.id)).Nodup →
        ∀ (i : Nat) (h : i < db.length) (h2 : i < ((processDue env nowUtc db).1).length),
          dueQ nowUtc (db.get ⟨i, h⟩) = true →
          ((processDue env nowUtc db).1).get ⟨i, h2⟩
            = (processOne env nowUtc (db.get ⟨i, h⟩)).1) := by
  refine ⟨?_, ?_, ?_⟩
  · simp [processOne, post_reminder, update_next_run, hg, hch, hc, ht, hcfg, hsend, hz]
  · intro now2 hdue hle
    simp only [dueQ, Bool.and_eq_true, decide_eq_true_eq] at hdue ⊢
    exact ⟨hdue.1, le_trans hdue.2 hle⟩
  · intro db hnd i h h2 hdue
    rw [processDue_fst_get env nowUtc db hnd i h h2, if_pos hdue]

/-- Claim C5 witness: the unknown-zone schedule at concrete inputs —
delivered, unchanged, still due later, and still processed in a batch. -/
theorem badTz_caught_and_retried_witness :
    processOne envTick 100 schedBadTz = (schedBadTz, ["TD Sol! ".toList])
    ∧ dueQ 160 schedBadTz = true
    ∧ ((processDue envTick 100 [schedBadTz]).1).get ⟨0, by decide⟩ = schedBadTz := by
  have hmain := badTz_caught_and_retried envTick 100 schedBadTz
    ⟨fun c => c = 5 || c = 6⟩ 5 ⟨"TD {system_name}! <@&{role_id}>".toList⟩
    rfl rfl rfl rfl rfl rfl rfl
  refine ⟨hmain.1, hmain.2.1 160 (by decide) (by decide), ?_⟩
  exact hmain.2.2 [schedBadTz] (by decide) 0 (by decide) (by decide) (by decide)

/-! ### Claim C6 -/

/-- Claim C6: the DST literal.  Re-arming from reference Monday
2024-03-04 10:00 America/New_York (UTC minute 91620 of the model
epoch; local wall 63*1440+600, a Monday) with `time_local = 02:30`,
`advance_minutes = 0` stores `next_run_utc` 101190 =
2024-03-11T06:30Z (EDT, UTC-4), not 07:30Z; the resulting local
instant is Monday 2024-03-11 02:30, after the March-10 spring-forward,
because the local-to-UTC conversion uses the offset at the RESULTING
wall instant, after the 7-day arithmetic. -/
theorem dst_rearm_literal :
    utcToWall Zone.americaNewYork 91620 = 63 * 1440 + 600
    ∧ wkdayOfWall (63 * 1440 + 600) = 0
    ∧ schedDst.hour = 2 ∧ schedDst.minute = 30 ∧ schedDst.advance_minutes = 0
    ∧ update_next_run 91620 schedDst = Except.ok { schedDst with next_run_utc := 101190 }
    ∧ (101190 : Int) = 70 * 1440 + 6 * 60 + 30
    ∧ (101190 : Int) ≠ 70 * 1440 + 7 * 60 + 30
    ∧ utcToWall Zone.americaNewYork 101190 = 70 * 1440 + 2 * 60 + 30
    ∧ wkdayOfWall (70 * 1440 + 2 * 60 + 30) = 0 := by
  refine ⟨by decide, by decide, rfl, rfl, rfl, rfl, by decide, by decide, by decide, by decide⟩

/-! ### Claim C7 -/

/-- Claim C7: at creation, the code's forward weekday search equals
the spec's closed form `specDayOffset` (`(weekday - reference.weekday)
mod 7`, bumped to 7 when the offset is 0 and the reference's
time-of-day is not earlier than the target — a tie counts as passed);
the chosen offset lies in 0..7, the nominal slot's local day-of-week
is the rule's weekday, its time-of-day is `time_local`, and the stored
fire instant's time-of-day is `time_local - advance_minutes` modulo
day rollback. -/
theorem first_occurrence_search (z : Zone) (nowUtc : Int) (wd h m adv : Nat)
    (hwd : wd < 7) (hh : h < 24) (hm : m < 60) :
    first_occurrence z nowUtc wd h m adv =
      wallToUtc z ((dayOfWall (utcToWall z nowUtc) + specDayOffset z nowUtc wd h m) * 1440
        + ((h * 60 + m : Nat) : Int) - (adv : Int))
    ∧ 0 ≤ specDayOffset z nowUtc wd h m
    ∧ specDayOffset z nowUtc wd h m ≤ 7
    ∧ (dayOfWall (utcToWall z nowUtc) + specDayOffset z nowUtc wd h m) % 7 = (wd : Int)
    ∧ ((dayOfWall (utcToWall z nowUtc) + specDayOffset z nowUtc wd h m) * 1440
        + ((h * 60 + m : Nat) : Int)) % 1440 = ((h * 60 + m : Nat) : Int)
    ∧ (specDayOffset z nowUtc wd h m = 0 →
        utcToWall z nowUtc < replTime (utcToWall z nowUtc) h m)
    ∧ ((dayOfWall (utcToWall z nowUtc) + specDayOffset z nowUtc wd h m) * 1440
        + ((h * 60 + m : Nat) : Int) - (adv : Int)) % 1440
      = (((h * 60 + m : Nat) : Int) - (adv : Int)) % 1440 := by
  have harg : replTime (utcToWall z nowUtc) h m +
      (if ((wd : Int) - wkdayOfWall (utcToWall z nowUtc)) < 0 then
        ((wd : Int) - wkdayOfWall (utcToWall z nowUtc)) + 7
       else if ((wd : Int) - wkdayOfWall (utcToWall z nowUtc)) = 0 then
        (if utcToWall z nowUtc ≥ replTime (utcToWall z nowUtc) h m then 7 else 0)
       else ((wd : Int) - wkdayOfWall (utcToWall z nowUtc))) * 1440 - (adv : Int)
      = (dayOfWall (utcToWall z nowUtc) + specDayOffset z nowUtc wd h m) * 1440
        + ((h * 60 + m : Nat) : Int) - (adv : Int) := by
    unfold specDayOffset replTime wkdayOfWall dayOfWall
    split_ifs <;> omega
  refine ⟨?_, ?_, ?_, ?_, ?_, ?_, ?_⟩
  · exact congrArg (wallToUtc z) harg
  · unfold specDayOffset replTime wkdayOfWall dayOfWall
    split_ifs <;> omega
  · unfold specDayOffset replTime wkdayOfWall dayOfWall
    split_ifs <;> omega
  · unfold specDayOffset replTime wkdayOfWall dayOfWall
    split_ifs <;> omega
  · unfold specDayOffset replTime wkdayOfWall dayOfWall
    split_ifs <;> omega
  · unfold specDayOffset replTime wkdayOfWall dayOfWall
    split_ifs <;> omega
  · omega

/-- Claim C7 witness: the literal — reference Monday 2024-01-01 10:00
America/New_York (UTC minute 900; local 600), weekday 4, 14:30,
advance 10 → stored UTC instant 6920 = 2024-01-05T19:20Z, local
Friday 14:20. -/
theorem first_occurrence_search_witness :
    first_occurrence Zone.americaNewYork 900 4 14 30 10 = 6920
    ∧ specDayOffset Zone.americaNewYork 900 4 14 30 = 4
    ∧ (6920 : Int) = 4 * 1440 + 19 * 60 + 20
    ∧ utcToWall Zone.americaNewYork 6920 = 4 * 1440 + 14 * 60 + 20
    ∧ wkdayOfWall (4 * 1440 + 14 * 60 + 30) = 4
    ∧ utcToWall Zone.americaNewYork 900 = 600
    ∧ wkdayOfWall 600 = 0 := by
  have hmain := first_occurrence_search Zone.americaNewYork 900 4 14 30 10
    (by decide) (by decide) (by decide)
  exact ⟨hmain.1, by decide, by decide, by decide, by decide, by decide, by decide⟩

end Locutus

namespace Locutus

/-! ### Claim C8 -/

/-- Claim C8: per-item failure isolation.  Within one tick, every due
schedule's final row equals the result of its own per-item processing,
whatever happens while processing the other members of the batch — an
exception raised for one schedule (resolution, rendering, delivery or
re-arm) is caught by the per-item handler and never prevents the
remaining due schedules from being processed. -/
theorem per_item_isolation (env : Env) (nowUtc : Int) (db : List ScheduleRec)
    (hnd : (db.map (fun r => r.id)).Nodup) (i : Nat) (h : i < db.length)
    (h2 : i < ((processDue env nowUtc db).1).length)
    (hdue : dueQ nowUtc (db.get ⟨i, h⟩) = true) :
    ((processDue env nowUtc db).1).get ⟨i, h2⟩
      = (processOne env nowUtc (db.get ⟨i, h⟩)).1 := by
  rw [processDue_fst_get env nowUtc db hnd i h h2, if_pos hdue]

set_option maxRecDepth 4000 in
/-- Claim C8 witness: a batch of two due schedules in which the first
delivery raises; the second schedule is still processed and re-armed. -/
theorem per_item_isolation_witness :
    post_reminder envTick schedFailing = Except.error ()
    ∧ dueQ 100 schedFailing = true
    ∧ dueQ 100 schedOk = true
    ∧ ((processDue envTick 100 [schedFailing, schedOk]).1).get ⟨1, by decide⟩
        = { schedOk with next_run_utc := 10620 } := by
  refine ⟨rfl, rfl, rfl, ?_⟩
  exact per_item_isolation envTick 100 [schedFailing, schedOk]
    (by decide) 1 (by decide) (by decide) (by decide)

/-! ### Claim C9 -/

/-- Claim C9, counterexample: with `role_id` absent, rendering the
spec's literal content leaves the mention-wrapper token sequence of
that content (`<mention>...</mention>`) in the output — only the inner
`\x7brole_id\x7d` placeholder is deleted, because the code removes
exactly the literal `<@&\x7brole_id\x7d>`.  The rendered text is
`"Defense in Sol! <mention></mention>"`, which still contains a
mention artifact. -/
theorem mention_wrapper_left_behind :
    render_template "Defense in {system_name}! <mention>{role_id}</mention>".toList
        "Sol".toList none
      = "Defense in Sol! <mention></mention>".toList
    ∧ containsSub "<mention></mention>".toList
        (render_template "Defense in {system_name}! <mention>{role_id}</mention>".toList
          "Sol".toList none) = true := by
  refine ⟨by decide, by decide⟩

/-- Claim C9 (amended): the wrapper removal applies to the code's own
mention-wrapper token sequence, the literal `<@&\x7brole_id\x7d>`:
with `role_id` absent that whole sequence (not just the inner
placeholder) is removed and then any remaining bare `\x7brole_id\x7d`
token is removed, so a template using the code's wrapper renders with
no mention artifact at all; on the spec's `<mention>`-flavored literal
the output still contains `"Defense in Sol!"` and no
`\x7brole_id\x7d` or `<@&\x7brole_id\x7d>` token, but the
`<mention></mention>` shell itself survives. -/
theorem role_removal_with_code_wrapper :
    render_template "Defense in {system_name}! <@&{role_id}>".toList "Sol".toList none
      = "Defense in Sol! ".toList
    ∧ containsSub "Defense in Sol!".toList
        (render_template "Defense in {system_name}! <@&{role_id}>".toList
          "Sol".toList none) = true
    ∧ containsSub "<@&".toList
        (render_template "Defense in {system_name}! <@&{role_id}>".toList
          "Sol".toList none) = false
    ∧ containsSub "{role_id}".toList
        (render_template "Defense in {system_name}! <@&{role_id}>".toList
          "Sol".toList none) = false
    ∧ containsSub "Defense in Sol!".toList
        (render_template "Defense in {system_name}! <mention>{role_id}</mention>".toList
          "Sol".toList none) = true
    ∧ containsSub "{role_id}".toList
        (render_template "Defense in {system_name}! <mention>{role_id}</mention>".toList
          "Sol".toList none) = false
    ∧ containsSub "<@&{role_id}>".toList
        (render_template "Defense in {system_name}! <mention>{role_id}</mention>".toList
          "Sol".toList none) = false := by
  refine ⟨by decide, by decide, by decide, by decide, by decide, by decide, by decide⟩

/-! ### Claim C10 -/

/-- Claim C10, counterexample: with an empty-string `role_id` the
renderer takes the removal branch, yet the output is not always free
of the sentinel `INVALID_ROLE_ID` — content that already carries the
sentinel text passes it through verbatim, so "the sentinel never
appears in the output" fails for adversarial content. -/
theorem empty_role_sentinel_passthrough :
    render_template "INVALID_ROLE_ID".toList "x".toList (some []) =
      "INVALID_ROLE_ID".toList
    ∧ containsSub "INVALID_ROLE_ID".toList
        (render_template "INVALID_ROLE_ID".toList "x".toList (some [])) = true := by
  refine ⟨by decide, by decide⟩

/-- Claim C10 (amended): `render_template` treats an empty-string
`role_id` exactly like an absent one — the Python truthiness test
rejects `""`, so for every content and system name the output equals
the `role_id = None` output (the removal branch), and the sentinel
substitution for `\x7brole_id\x7d` is never performed; the sentinel
can appear only as a byproduct of the input text itself. -/
theorem empty_role_equals_absent :
    pyTruthy (some ([] : Str)) = false
    ∧ ∀ (content system_name : Str),
        render_template content system_name (some []) =
          render_template content system_name none := by
  exact ⟨rfl, fun _ _ => rfl⟩

end Locutus
